import Mathlib

/-!
Shallow embedding of the loss-prediction notebook (`LossPrediction.ipynb`).

Conventions of the embedding:
* pandas floating-point values are modelled by `ℚ`; a pandas `NaN`
  (missing value) is modelled by `Option.none`, so a nullable numeric
  column cell is an `Option ℚ`;
* pandas timestamps are modelled by `Int` nanoseconds since the epoch,
  the internal representation used by `pandas.Timestamp` (`int64` ns);
  the timestamp parser `pd.to_datetime` is an external library routine
  and enters the embedding as an explicit function argument
  `parse : String → Option Int` (`none` models a parse failure, which
  `pd.to_datetime` raises on);
* a dynamically typed cell of a categorical column is a `Cell`:
  missing (`NaN`), a number, or a string;
* Python strings (after the notebook's `.astype(str)` coercion) are
  modelled by `List Char`, compared lexicographically by code point,
  which is exactly how `numpy` sorts Python strings inside
  `LabelEncoder.fit`;
* a fallible pandas operation returns an `Option`: `none` models the
  library raising an exception, so no partial table escapes.
-/

/-- Nanoseconds in one day (pandas timestamps are `int64` nanoseconds). -/
def nsPerDay : Int := 86400000000000

/-- Nanoseconds in one hour. -/
def nsPerHour : Int := 3600000000000

/-- Calendar month (1–12) of a civil day count (days since 1970-01-01),
the standard civil-from-days algorithm; models `Timestamp.month`. -/
def monthFromDays (z0 : Int) : Int :=
  let z := z0 + 719468
  let era := Int.fdiv z 146097
  let doe := z - era * 146097
  let yoe := Int.fdiv (doe - Int.fdiv doe 1460 + Int.fdiv doe 36524 - Int.fdiv doe 146096) 365
  let doy := doe - (365 * yoe + Int.fdiv yoe 4 - Int.fdiv yoe 100)
  let mp := Int.fdiv (5 * doy + 2) 153
  if mp < 10 then mp + 3 else mp - 9

/-- Hour of day (0–23) of a nanosecond timestamp; models `Timestamp.hour`. -/
def hourFromNs (ns : Int) : Int :=
  Int.emod (Int.fdiv ns nsPerHour) 24

/-- `pandas.Series.dt.days` of the `Timedelta` between two nanosecond
timestamps: floor division of the difference by the length of a day
(`Timedelta.days` is the floor, so `-1 hour` has `days = -1`).
Embeds line `df['ReportDelayDays'] = (df['DateReported'] -
df['DateTimeOfAccident']).dt.days` of `clean_and_engineer`. -/
def reportDelayDaysOf (accNs repNs : Int) : Int :=
  Int.fdiv (repNs - accNs) nsPerDay

/-- One dynamically typed cell of a categorical column: missing (`NaN`),
numeric, or string. -/
inductive Cell : Type where
  | na : Cell
  | num : ℚ → Cell
  | str : String → Cell
deriving DecidableEq, Repr

/-- One row of the raw `train.csv` / `test.csv` tables, restricted to the
columns the notebook reads.  `ultimateIncurredClaimCost` is the target
column; on test rows it is never read by the pipeline. -/
structure RawRow : Type where
  dateTimeOfAccident : String
  dateReported : String
  age : Option ℚ
  weeklyWages : Option ℚ
  hoursWorkedPerWeek : Option ℚ
  daysWorkedPerWeek : Option ℚ
  dependentChildren : Option ℚ
  dependentsOther : Option ℚ
  gender : Cell
  maritalStatus : Cell
  partTimeFullTime : Cell
  ultimateIncurredClaimCost : ℚ
deriving DecidableEq, Repr

/-- Elementwise float division lifted to nullable cells: `NaN` operands
propagate to `NaN` (pandas `/` on float series). -/
def divOpt (a b : Option ℚ) : Option ℚ :=
  match a, b with
  | some x, some y => some (x / y)
  | _, _ => none

/-- Elementwise float addition lifted to nullable cells: `NaN` operands
propagate to `NaN` (pandas `+` on float series). -/
def addOpt (a b : Option ℚ) : Option ℚ :=
  match a, b with
  | some x, some y => some (x + y)
  | _, _ => none

/-- `Series.replace(0, np.nan)` on a nullable numeric cell: an exact zero
becomes missing, everything else (including an already missing cell) is
unchanged. -/
def replaceZeroWithNa (a : Option ℚ) : Option ℚ :=
  match a with
  | some x => if x = 0 then none else some x
  | none => none

/-- A row after `clean_and_engineer`: the raw row plus the parsed
timestamps and the derived columns the function adds to the frame. -/
structure EngRow : Type where
  raw : RawRow
  accNs : Int
  repNs : Int
  reportDelayDays : Int
  accidentMonth : Int
  accidentHour : Int
  wagePerHour : Option ℚ
  dependentsTotal : Option ℚ
deriving DecidableEq, Repr

/-- Row-level body of `clean_and_engineer`: parse the two timestamp
columns (a failure of either parse is a failure of the whole row, hence
— through `cleanAndEngineer` — of the whole table), then derive
`ReportDelayDays`, `AccidentMonth`, `AccidentHour`, `WagePerHour` and
`DependentsTotal` exactly as the notebook's column expressions do. -/
def engineerRow (parse : String → Option Int) (r : RawRow) : Option EngRow :=
  match parse r.dateTimeOfAccident, parse r.dateReported with
  | some accNs, some repNs =>
      some
        { raw := r
          accNs := accNs
          repNs := repNs
          reportDelayDays := reportDelayDaysOf accNs repNs
          accidentMonth := monthFromDays (Int.fdiv accNs nsPerDay)
          accidentHour := hourFromNs accNs
          wagePerHour := divOpt r.weeklyWages (replaceZeroWithNa r.hoursWorkedPerWeek)
          dependentsTotal := addOpt r.dependentChildren r.dependentsOther }
  | _, _ => none

/-- Elementwise fallible map over a table: any failing row makes the
whole operation fail, producing no partial output (models a pandas
column operation that raises). -/
def mapOpt (f : α → Option β) : List α → Option (List β)
  | [] => some []
  | a :: l =>
      match f a, mapOpt f l with
      | some b, some bs => some (b :: bs)
      | _, _ => none

/-- `clean_and_engineer`: the row-level engineering applied to every row
of the frame; a malformed timestamp anywhere aborts the whole operation
(`pd.to_datetime` raises, so no partially engineered table is
produced). -/
def cleanAndEngineer (parse : String → Option Int) (df : List RawRow) : Option (List EngRow) :=
  mapOpt (engineerRow parse) df

/-- A row of the design matrix `X = df[FEATURES]`: the twelve columns of
the notebook's `FEATURES` list, in order - nine numeric columns and the
three categorical columns `Gender`, `MaritalStatus`,
`PartTimeFullTime`. -/
structure FeatRow : Type where
  age : Option ℚ
  accidentMonth : Option ℚ
  accidentHour : Option ℚ
  reportDelayDays : Option ℚ
  weeklyWages : Option ℚ
  hoursWorkedPerWeek : Option ℚ
  daysWorkedPerWeek : Option ℚ
  wagePerHour : Option ℚ
  dependentsTotal : Option ℚ
  gender : Cell
  maritalStatus : Cell
  partTimeFullTime : Cell
deriving DecidableEq, Repr

/-- Column selection `df[FEATURES]` on one engineered row. -/
def featRowOf (e : EngRow) : FeatRow :=
  { age := e.raw.age
    accidentMonth := some (e.accidentMonth : ℚ)
    accidentHour := some (e.accidentHour : ℚ)
    reportDelayDays := some (e.reportDelayDays : ℚ)
    weeklyWages := e.raw.weeklyWages
    hoursWorkedPerWeek := e.raw.hoursWorkedPerWeek
    daysWorkedPerWeek := e.raw.daysWorkedPerWeek
    wagePerHour := e.wagePerHour
    dependentsTotal := e.dependentsTotal
    gender := e.raw.gender
    maritalStatus := e.raw.maritalStatus
    partTimeFullTime := e.raw.partTimeFullTime }

/-- Decimal rendering of a rational, used only to model Python's
`str()` on a numeric cell: any injective printable form serves, since
the notebook's categorical columns hold strings and the encoder only
compares and sorts the coerced text. -/
def ratChars (q : ℚ) : List Char :=
  (if q.num < 0 then ['-'] else []) ++ Nat.toDigits 10 q.num.natAbs ++ '/' :: Nat.toDigits 10 q.den

/-- `.astype(str)` on one cell: a string stays itself, a missing value
prints as the text `nan`, a number prints as its decimal form.  The
result is a Python string, modelled as its character list. -/
def cellAsStr (c : Cell) : List Char :=
  match c with
  | .na => ['n', 'a', 'n']
  | .num q => ratChars q
  | .str s => s.data

/-- `LabelEncoder.fit` on a column of coerced strings: `classes_` is the
sorted list of distinct observed values (`numpy.unique` sorts
lexicographically by code point). -/
def fitClasses (col : List Cell) : List (List Char) :=
  List.insertionSort (· ≤ ·) (col.map cellAsStr).dedup

/-- Position of a value in the fitted class list; `none` models the
`ValueError` that `LabelEncoder.transform` raises on a value that was
never seen during fitting. -/
def idxOf : List (List Char) → List Char → Option Nat
  | [], _ => none
  | c :: cs, s => if c = s then some 0 else (idxOf cs s).map (· + 1)

/-- `LabelEncoder.transform` on one cell: coerce to text, look the text
up among the fitted classes, and return its integer code as the new
(numeric) cell content. -/
def encodeCell (classes : List (List Char)) (c : Cell) : Option Cell :=
  (idxOf classes (cellAsStr c)).map (fun n => Cell.num (n : ℚ))

/-- `LabelEncoder.transform` on a whole column; an unseen value anywhere
raises, failing the whole transform. -/
def transformCol (classes : List (List Char)) (col : List Cell) : Option (List Cell) :=
  mapOpt (encodeCell classes) col

/-- One iteration of the `for col in cats` loop of `encode_and_impute`:
fit a `LabelEncoder` on the training column (after `.astype(str)`),
transform the training column and the test column with it, and write
the integer codes back into that column of both frames (the in-place
`X_train[col] = ...` / `X_test[col] = ...` assignments). -/
def encodeCol (get : FeatRow → Cell) (set : FeatRow → Cell → FeatRow)
    (tr te : List FeatRow) : Option (List FeatRow × List FeatRow) := do
  let classes := fitClasses (tr.map get)
  let trC ← transformCol classes (tr.map get)
  let teC ← transformCol classes (te.map get)
  pure (List.zipWith set tr trC, List.zipWith set te teC)

/-- `fillna(0)` on one nullable numeric cell. -/
def fillOpt (a : Option ℚ) : Option ℚ :=
  some (a.getD 0)

/-- `fillna(0)` on one dynamically typed cell. -/
def fillCell (c : Cell) : Cell :=
  match c with
  | .na => .num 0
  | c => c

/-- `fillna(0)` on one feature row: every remaining missing value, in
every column, becomes zero; present values are unchanged. -/
def fillRow (r : FeatRow) : FeatRow :=
  { age := fillOpt r.age
    accidentMonth := fillOpt r.accidentMonth
    accidentHour := fillOpt r.accidentHour
    reportDelayDays := fillOpt r.reportDelayDays
    weeklyWages := fillOpt r.weeklyWages
    hoursWorkedPerWeek := fillOpt r.hoursWorkedPerWeek
    daysWorkedPerWeek := fillOpt r.daysWorkedPerWeek
    wagePerHour := fillOpt r.wagePerHour
    dependentsTotal := fillOpt r.dependentsTotal
    gender := fillCell r.gender
    maritalStatus := fillCell r.maritalStatus
    partTimeFullTime := fillCell r.partTimeFullTime }

/-- `encode_and_impute`.  The source mutates the two argument frames in
place (the loop assigns `X_train[col] = le.fit_transform(...)` and
`X_test[col] = le.transform(...)` on the frames passed in) and then
returns fresh `fillna(0)` copies of them; the embedding passes that
state explicitly, returning first the pair of post-call argument states
(categorical columns overwritten with integer codes, everything else
untouched) and second the pair of frames the function returns (the
zero-filled copies).  An unseen test-time category raises, so the whole
call yields `none`. -/
def encodeAndImpute (xTrain xTest : List FeatRow) :
    Option ((List FeatRow × List FeatRow) × (List FeatRow × List FeatRow)) := do
  let (tr1, te1) ← encodeCol (fun r => r.gender) (fun r c => { r with gender := c }) xTrain xTest
  let (tr2, te2) ← encodeCol (fun r => r.maritalStatus) (fun r c => { r with maritalStatus := c }) tr1 te1
  let (tr3, te3) ← encodeCol (fun r => r.partTimeFullTime) (fun r c => { r with partTimeFullTime := c }) tr2 te2
  pure ((tr3, te3), (tr3.map fillRow, te3.map fillRow))

/-- The three candidate algorithm families of `compare_models`, in the
iteration order of the `model_defs` dictionary. -/
inductive FamilyName : Type where
  | gradientBoosting : FamilyName
  | randomForest : FamilyName
  | catBoost : FamilyName
deriving DecidableEq, Repr

/-- Iteration order of the `model_defs` dictionary (Python dictionaries
iterate in insertion order): `GradientBoosting`, then `RandomForest`,
then `CatBoost`. -/
def modelOrder : List FamilyName :=
  [FamilyName.gradientBoosting, FamilyName.randomForest, FamilyName.catBoost]

/-- The `random_state=42` literal passed to each of the three estimator
constructors in `model_defs`. -/
def estimatorRandomState : Nat := 42

/-- The `random_state=42` literal passed to `train_test_split` in
`main`. -/
def splitRandomState : Nat := 42

/-- The selection loop of `compare_models`.  `evalF` abstracts one loop
body up to the hold-out evaluation: `GridSearchCV(...).fit` on the
training split followed by prediction on the validation split, yielding
the family's `best_estimator_` (of opaque type `μ`) and its hold-out
RMSE.  The loop state mirrors the source's `best_model` (`None`
initially), `best_rmse` (`inf` initially, modelled by `⊤` in
`WithTop ℚ`), `best_name` (`None` initially); a family replaces the
running best exactly when its RMSE is strictly below it. -/
def compareModels {μ : Type} (evalF : FamilyName → μ × ℚ) :
    Option μ × WithTop ℚ × Option FamilyName :=
  modelOrder.foldl
    (fun best name =>
      let rmse := (evalF name).2
      if (rmse : WithTop ℚ) < best.2.1 then (some (evalF name).1, (rmse : WithTop ℚ), some name)
      else best)
    (none, ⊤, none)

/-- One row of the submission template: its non-target columns, kept
opaque, and the `UltimateIncurredClaimCost` column the pipeline
overwrites. -/
structure SubRow : Type where
  otherCols : List Cell
  target : ℚ
deriving DecidableEq, Repr

/-- `submission['UltimateIncurredClaimCost'] = best_model.predict(X_test)`:
write the i-th prediction into the target column of the i-th submission
row, leaving every other column and the row order unchanged. -/
def writeSubmission (sub : List SubRow) (preds : List ℚ) : List SubRow :=
  List.zipWith (fun r p => { r with target := p }) sub preds

/-- The external library routines `main` delegates to, abstracted as
explicit deterministic functions of an explicit seed where the source
passes `random_state`:
* `parse` — `pd.to_datetime` on one timestamp string;
* `splitFn` — `train_test_split(X, y, test_size=0.2, random_state=s)`,
  returning `((X_tr, X_val), (y_tr, y_val))`;
* `evalFamily` — for one family: construct the estimator with
  `random_state=s`, grid-search it on the training split, and evaluate
  the best estimator on the hold-out split, returning
  (`best_estimator_`, hold-out RMSE);
* `refit` — `best_model.fit(X, y)`: refit the selected estimator, same
  hyperparameters, on the given matrix and target;
* `predictRow` — the fitted model's prediction on one feature row. -/
structure Deps (μ : Type) : Type where
  parse : String → Option Int
  splitFn : Nat → List FeatRow → List ℚ →
    (List FeatRow × List FeatRow) × (List ℚ × List ℚ)
  evalFamily : Nat → (List FeatRow × List ℚ) → (List FeatRow × List ℚ) → FamilyName → μ × ℚ
  refit : μ → List FeatRow → List ℚ → μ
  predictRow : μ → FeatRow → ℚ

/-- `main`: load is abstracted away (the three parsed tables are the
arguments), then the notebook's steps 2–6 in order: engineer both
tables, build `X`, `y`, `X_test`, encode and impute, split once with
seed 42, compare the three families, refit the winner on the full `X`
and `y`, and write one prediction per test row into the submission
table (pandas raises if the prediction vector's length differs from the
submission's row count, hence the final guard).  Returns the refitted
model and the written submission table. -/
def mainPipeline {μ : Type} (d : Deps μ) (train test : List RawRow) (submission : List SubRow) :
    Option (μ × List SubRow) := do
  let trainE ← cleanAndEngineer d.parse train
  let testE ← cleanAndEngineer d.parse test
  let x0 := trainE.map featRowOf
  let y := trainE.map (fun e => e.raw.ultimateIncurredClaimCost)
  let xTest0 := testE.map featRowOf
  let (_, ret) ← encodeAndImpute x0 xTest0
  let x := ret.1
  let xTest := ret.2
  let split := d.splitFn splitRandomState x y
  let best := compareModels (d.evalFamily estimatorRandomState (split.1.1, split.2.1) (split.1.2, split.2.2))
  let bestModel ← best.1
  let finalModel := d.refit bestModel x y
  let preds := xTest.map (d.predictRow finalModel)
  if preds.length = submission.length then
    pure (finalModel, writeSubmission submission preds)
  else
    none

/-- Truncating (toward-zero) day count of the timestamp difference.
Modelled from the spec: this follows the claim's words "expressed as a
whole number of days with any partial day truncated"; it is the
comparison point for the refinement claim about `ReportDelayDays`, not
a translation of the source (the source floors). -/
def reportDelaySpecTrunc (accNs repNs : Int) : Int :=
  Int.tdiv (repNs - accNs) nsPerDay

/-- A feature row with no missing cell in any of the twelve columns. -/
def hasNoNa (r : FeatRow) : Bool :=
  r.age.isSome && r.accidentMonth.isSome && r.accidentHour.isSome &&
  r.reportDelayDays.isSome && r.weeklyWages.isSome && r.hoursWorkedPerWeek.isSome &&
  r.daysWorkedPerWeek.isSome && r.wagePerHour.isSome && r.dependentsTotal.isSome &&
  !(r.gender matches Cell.na) && !(r.maritalStatus matches Cell.na) &&
  !(r.partTimeFullTime matches Cell.na)

/-- Trivial timestamp table: every string parses to the epoch. -/
def pEpoch : String → Option Int := fun _ => some 0

/-- A concrete claim record with 40 worked hours and a 600 weekly wage. -/
def wageRow : RawRow :=
  { dateTimeOfAccident := "2023-01-01 08:00"
    dateReported := "2023-01-05 08:00"
    age := some 30
    weeklyWages := some 600
    hoursWorkedPerWeek := some 40
    daysWorkedPerWeek := some 5
    dependentChildren := some 1
    dependentsOther := some 0
    gender := Cell.str "M"
    maritalStatus := Cell.str "S"
    partTimeFullTime := Cell.str "F"
    ultimateIncurredClaimCost := 1000 }

/-- The same record with zero worked hours and missing dependent counts. -/
def zeroHourRow : RawRow :=
  { wageRow with
    hoursWorkedPerWeek := some 0
    dependentChildren := none
    dependentsOther := none }

/-- The engineered form of `wageRow` under `pEpoch`. -/
def wageEng : EngRow :=
  { raw := wageRow
    accNs := 0
    repNs := 0
    reportDelayDays := reportDelayDaysOf 0 0
    accidentMonth := monthFromDays (Int.fdiv 0 nsPerDay)
    accidentHour := hourFromNs 0
    wagePerHour := divOpt (some 600) (replaceZeroWithNa (some 40))
    dependentsTotal := addOpt (some 1) (some 0) }

/-- The engineered form of `zeroHourRow` under `pEpoch`. -/
def zeroHourEng : EngRow :=
  { wageEng with
    raw := zeroHourRow
    wagePerHour := divOpt (some 600) (replaceZeroWithNa (some 0))
    dependentsTotal := addOpt none none }

/-- A timestamp table where the string `r` is the epoch and every other
string is one hour past the epoch. -/
def parseOneHour : String → Option Int := fun s => if s = "r" then some 0 else some nsPerHour

/-- A record reported one hour before its accident (reversed order). -/
def lateAccidentRow : RawRow :=
  { wageRow with
    dateTimeOfAccident := "a"
    dateReported := "r"
    hoursWorkedPerWeek := some 0
    dependentChildren := none
    dependentsOther := none }

/-- The engineered form of `lateAccidentRow` under `parseOneHour`. -/
def lateAccidentEng : EngRow :=
  { raw := lateAccidentRow
    accNs := nsPerHour
    repNs := 0
    reportDelayDays := reportDelayDaysOf nsPerHour 0
    accidentMonth := monthFromDays (Int.fdiv nsPerHour nsPerDay)
    accidentHour := hourFromNs nsPerHour
    wagePerHour := divOpt (some 600) (replaceZeroWithNa (some 0))
    dependentsTotal := addOpt none none }

/-- A timestamp table that rejects the string `bad` (malformed) and
parses everything else to the epoch. -/
def parseRejecting : String → Option Int := fun s => if s = "bad" then none else some 0

/-- A record whose report timestamp is the malformed string `bad`. -/
def badStampRow : RawRow := { wageRow with dateReported := "bad" }

/-- A feature row with every cell missing. -/
def emptyFeatRow : FeatRow :=
  { age := none, accidentMonth := none, accidentHour := none, reportDelayDays := none,
    weeklyWages := none, hoursWorkedPerWeek := none, daysWorkedPerWeek := none,
    wagePerHour := none, dependentsTotal := none,
    gender := Cell.na, maritalStatus := Cell.na, partTimeFullTime := Cell.na }

/-- `emptyFeatRow` after its three categorical cells are label-encoded. -/
def encodedEmptyRow : FeatRow :=
  { emptyFeatRow with
    gender := Cell.num ((0 : Nat) : ℚ)
    maritalStatus := Cell.num ((0 : Nat) : ℚ)
    partTimeFullTime := Cell.num ((0 : Nat) : ℚ) }

/-- `encodedEmptyRow` after `fillna(0)`. -/
def filledEmptyRow : FeatRow := fillRow encodedEmptyRow

/-- A feature row with string values in the three categorical columns. -/
def catFeatRow : FeatRow :=
  { emptyFeatRow with
    gender := Cell.str "M"
    maritalStatus := Cell.str "S"
    partTimeFullTime := Cell.str "F" }

/-- `catFeatRow` with a `Gender` value never seen in training. -/
def unseenFeatRow : FeatRow := { catFeatRow with gender := Cell.str "Z" }

/-- `catFeatRow` after its three categorical cells are label-encoded. -/
def encodedCatRow : FeatRow :=
  { catFeatRow with
    gender := Cell.num ((0 : Nat) : ℚ)
    maritalStatus := Cell.num ((0 : Nat) : ℚ)
    partTimeFullTime := Cell.num ((0 : Nat) : ℚ) }

/-- `encodedCatRow` after `fillna(0)`. -/
def filledCatRow : FeatRow := fillRow encodedCatRow

/-- A one-row submission template. -/
def subTemplate : List SubRow := [{ otherCols := [Cell.str "id1"], target := 0 }]

/-- The template after the constant prediction 7 is written into the
target column. -/
def subWritten : List SubRow := [{ otherCols := [Cell.str "id1"], target := 7 }]

/-- Constant library stubs: every timestamp parses to the epoch, the
split keeps every row in the training part, every family evaluates to
hold-out RMSE 0, and the fitted model predicts the constant 7. -/
def depsConst : Deps Unit :=
  { parse := fun _ => some 0
    splitFn := fun _ x y => ((x, []), (y, []))
    evalFamily := fun _ _ _ _ => ((), 0)
    refit := fun _ _ _ => ()
    predictRow := fun _ _ => 7 }

/-- Like `depsConst` except that the split behaves differently at seed
0 — it agrees with `depsConst` at the pipeline's actual seed 42. -/
def depsSeedA : Deps Unit :=
  { depsConst with
    splitFn := fun s x y => if s = 0 then (([], x), ([], y)) else ((x, []), (y, [])) }

/-- A training column with a repeated category. -/
def colRepeats : List Cell := [Cell.str "M", Cell.str "F", Cell.str "M"]

/-- The same observed category set without repetition, in another
order. -/
def colPlain : List Cell := [Cell.str "F", Cell.str "M"]

/-- A test column to transform. -/
def colApply : List Cell := [Cell.str "F"]

theorem mapOpt_eq_none {α β : Type _} {f : α → Option β} :
    ∀ {l : List α} {a : α}, a ∈ l → f a = none → mapOpt f l = none
  | b :: l, a, ha, hfa => by
    rcases List.mem_cons.mp ha with h | h
    · subst h
      cases h' : mapOpt f l <;> simp [mapOpt, hfa, h']
    · have ih := mapOpt_eq_none h hfa
      cases h' : f b <;> simp [mapOpt, h', ih]

theorem mapOpt_length {α β : Type _} {f : α → Option β} :
    ∀ {l : List α} {out : List β}, mapOpt f l = some out → out.length = l.length
  | [], out, h => by
    simp only [mapOpt] at h
    cases h
    rfl
  | a :: l, out, h => by
    revert h
    cases hfa : f a with
    | none => intro h; simp [mapOpt, hfa] at h
    | some b =>
      cases hml : mapOpt f l with
      | none => intro h; simp [mapOpt, hfa, hml] at h
      | some bs =>
        intro h
        simp only [mapOpt, hfa, hml] at h
        cases h
        have := mapOpt_length hml
        simp [this]

theorem mapOpt_getElem? {α β : Type _} {f : α → Option β} :
    ∀ {l : List α} {out : List β}, mapOpt f l = some out →
      ∀ {i : Nat} {a : α}, l[i]? = some a → ∃ b, out[i]? = some b ∧ f a = some b
  | [], out, _, i, a, ha => by simp at ha
  | x :: l, out, h, i, a, ha => by
    revert h
    cases hfa : f x with
    | none => intro h; simp [mapOpt, hfa] at h
    | some b =>
      cases hml : mapOpt f l with
      | none => intro h; simp [mapOpt, hfa, hml] at h
      | some bs =>
        intro h
        simp only [mapOpt, hfa, hml] at h
        cases h
        cases i with
        | zero =>
          rw [List.getElem?_cons_zero] at ha
          cases ha
          exact ⟨b, by simp, hfa⟩
        | succ i =>
          rw [List.getElem?_cons_succ] at ha
          simpa using mapOpt_getElem? hml ha

theorem mapOpt_isSome {α β : Type _} {f : α → Option β} :
    ∀ {l : List α}, (∀ a ∈ l, (f a).isSome) → ∃ out, mapOpt f l = some out
  | [], _ => ⟨[], rfl⟩
  | a :: l, h => by
    have ha : (f a).isSome := h a (List.mem_cons_self a l)
    obtain ⟨b, hb⟩ := Option.isSome_iff_exists.mp ha
    obtain ⟨bs, hbs⟩ := mapOpt_isSome (fun x hx => h x (List.mem_cons_of_mem a hx))
    exact ⟨b :: bs, by simp [mapOpt, hb, hbs]⟩

theorem idxOf_eq_none_iff : ∀ {cls : List (List Char)} {s : List Char},
    idxOf cls s = none ↔ s ∉ cls
  | [], s => by simp [idxOf]
  | c :: cs, s => by
    by_cases hc : c = s
    · subst hc
      simp [idxOf]
    · simp [idxOf, hc, Option.map_eq_none', idxOf_eq_none_iff, Ne.symm hc]

theorem idxOf_isSome_of_mem {cls : List (List Char)} {s : List Char} (h : s ∈ cls) :
    ∃ n, idxOf cls s = some n := by
  cases hn : idxOf cls s with
  | none => exact absurd (idxOf_eq_none_iff.mp hn) (not_not.mpr h)
  | some n => exact ⟨n, rfl⟩

theorem mem_fitClasses {col : List Cell} {s : List Char} :
    s ∈ fitClasses col ↔ s ∈ col.map cellAsStr := by
  unfold fitClasses
  rw [(List.perm_insertionSort _ _).mem_iff]
  exact List.mem_dedup

theorem fitClasses_eq_of_toFinset_eq {c1 c2 : List Cell}
    (h : (c1.map cellAsStr).toFinset = (c2.map cellAsStr).toFinset) :
    fitClasses c1 = fitClasses c2 := by
  have hperm : List.Perm (c1.map cellAsStr).dedup (c2.map cellAsStr).dedup :=
    List.toFinset_eq_iff_perm_dedup.mp h
  exact List.eq_of_perm_of_sorted
    (((List.perm_insertionSort _ _).trans hperm).trans (List.perm_insertionSort _ _).symm)
    (List.sorted_insertionSort _ _) (List.sorted_insertionSort _ _)

theorem transformCol_length {cls : List (List Char)} {col : List Cell} {out : List Cell}
    (h : transformCol cls col = some out) : out.length = col.length :=
  mapOpt_length h

theorem transformCol_eq_none {cls : List (List Char)} {col : List Cell} {c : Cell}
    (hc : c ∈ col) (hs : cellAsStr c ∉ cls) : transformCol cls col = none := by
  apply mapOpt_eq_none hc
  have hn : idxOf cls (cellAsStr c) = none := idxOf_eq_none_iff.mpr hs
  simp [encodeCell, hn]

theorem transformCol_isSome {cls : List (List Char)} {col : List Cell}
    (h : ∀ c ∈ col, cellAsStr c ∈ cls) : ∃ out, transformCol cls col = some out := by
  apply mapOpt_isSome
  intro c hc
  obtain ⟨n, hn⟩ := idxOf_isSome_of_mem (h c hc)
  simp [encodeCell, hn]

theorem transformFit_isSome (col : List Cell) :
    ∃ out, transformCol (fitClasses col) col = some out := by
  apply transformCol_isSome
  intro c hc
  exact mem_fitClasses.mpr (List.mem_map_of_mem cellAsStr hc)

theorem transformCol_cell {cls : List (List Char)} {col out : List Cell}
    (h : transformCol cls col = some out) {i : Nat} {c : Cell} (hc : col[i]? = some c) :
    ∃ n : Nat, out[i]? = some (Cell.num n) := by
  obtain ⟨b, hb, hfb⟩ := mapOpt_getElem? h hc
  simp only [encodeCell] at hfb
  cases hn : idxOf cls (cellAsStr c) with
  | none => simp [hn] at hfb
  | some n =>
    simp [hn] at hfb
    exact ⟨n, by rw [hb, ← hfb]⟩

theorem map_zipWith_eq {α β γ : Type _} (set : α → β → α) (g : α → γ)
    (hg : ∀ r c, g (set r c) = g r) :
    ∀ (rows : List α) (cells : List β), cells.length = rows.length →
      (List.zipWith set rows cells).map g = rows.map g
  | [], _, _ => by simp
  | r :: rows, [], h => by simp at h
  | r :: rows, c :: cells, h => by
    simp only [List.zipWith_cons_cons, List.map_cons, hg]
    rw [map_zipWith_eq set g hg rows cells (by simpa using h)]

theorem zipWith_getElem? {α β γ : Type _} {f : α → β → γ} :
    ∀ {as : List α} {bs : List β} {i : Nat} {a : α} {b : β},
      as[i]? = some a → bs[i]? = some b → (List.zipWith f as bs)[i]? = some (f a b)
  | [], _, _, _, _, ha, _ => by simp at ha
  | _ :: _, [], _, _, _, _, hb => by simp at hb
  | x :: as, y :: bs, 0, a, b, ha, hb => by
    rw [List.getElem?_cons_zero] at ha hb
    cases ha
    cases hb
    simp
  | x :: as, y :: bs, i + 1, a, b, ha, hb => by
    rw [List.getElem?_cons_succ] at ha hb
    simpa using zipWith_getElem? ha hb

theorem encodeCol_spec {get : FeatRow → Cell} {set : FeatRow → Cell → FeatRow}
    {tr te tr' te' : List FeatRow}
    (h : encodeCol get set tr te = some (tr', te')) :
    tr'.length = tr.length ∧ te'.length = te.length ∧
    (∀ (i : Nat) (r : FeatRow), tr[i]? = some r → ∃ n : Nat, tr'[i]? = some (set r (Cell.num n))) ∧
    (∀ (i : Nat) (r : FeatRow), te[i]? = some r → ∃ n : Nat, te'[i]? = some (set r (Cell.num n))) ∧
    (∀ (γ : Type) (g : FeatRow → γ), (∀ r c, g (set r c) = g r) →
      tr'.map g = tr.map g ∧ te'.map g = te.map g) := by
  have h' : ∃ trC teC,
      transformCol (fitClasses (tr.map get)) (tr.map get) = some trC ∧
      transformCol (fitClasses (tr.map get)) (te.map get) = some teC ∧
      tr' = List.zipWith set tr trC ∧ te' = List.zipWith set te teC := by
    revert h
    cases h1 : transformCol (fitClasses (tr.map get)) (tr.map get) with
    | none => intro h; simp [encodeCol, h1] at h
    | some trC =>
      cases h2 : transformCol (fitClasses (tr.map get)) (te.map get) with
      | none => intro h; simp [encodeCol, h1, h2] at h
      | some teC =>
        intro h
        simp [encodeCol, h1, h2, Prod.mk.injEq] at h
        exact ⟨trC, teC, rfl, rfl, h.1.symm, h.2.symm⟩
  obtain ⟨trC, teC, htrC, hteC, htr', hte'⟩ := h'
  subst htr'
  subst hte'
  have htrl : trC.length = tr.length := by
    have := transformCol_length htrC
    simpa using this
  have htel : teC.length = te.length := by
    have := transformCol_length hteC
    simpa using this
  refine ⟨by simp [htrl], by simp [htel], ?_, ?_, ?_⟩
  · intro i r hr
    have hm : (tr.map get)[i]? = some (get r) := by
      rw [List.getElem?_map, hr]
      rfl
    obtain ⟨n, hn⟩ := transformCol_cell htrC hm
    exact ⟨n, zipWith_getElem? hr hn⟩
  · intro i r hr
    have hm : (te.map get)[i]? = some (get r) := by
      rw [List.getElem?_map, hr]
      rfl
    obtain ⟨n, hn⟩ := transformCol_cell hteC hm
    exact ⟨n, zipWith_getElem? hr hn⟩
  · intro γ g hg
    exact ⟨map_zipWith_eq set g hg tr trC htrl, map_zipWith_eq set g hg te teC htel⟩

theorem encodeCol_eq_none {get : FeatRow → Cell} {set : FeatRow → Cell → FeatRow}
    {tr te : List FeatRow} {c : Cell} (hc : c ∈ te.map get)
    (hs : cellAsStr c ∉ (tr.map get).map cellAsStr) : encodeCol get set tr te = none := by
  obtain ⟨trC, htrC⟩ := transformFit_isSome (tr.map get)
  have hteC : transformCol (fitClasses (tr.map get)) (te.map get) = none :=
    transformCol_eq_none hc (fun hmem => hs (mem_fitClasses.mp hmem))
  simp [encodeCol, htrC, hteC]

theorem encodeCol_isSome {get : FeatRow → Cell} {set : FeatRow → Cell → FeatRow}
    {tr te : List FeatRow}
    (h : ∀ c ∈ te.map get, cellAsStr c ∈ (tr.map get).map cellAsStr) :
    ∃ p, encodeCol get set tr te = some p := by
  obtain ⟨trC, htrC⟩ := transformFit_isSome (tr.map get)
  obtain ⟨teC, hteC⟩ := transformCol_isSome (fun c hc => mem_fitClasses.mpr (h c hc))
  exact ⟨(List.zipWith set tr trC, List.zipWith set te teC), by
    simp [encodeCol, htrC, hteC]⟩

theorem encodeAndImpute_spec {tr te trP teP trR teR : List FeatRow}
    (h : encodeAndImpute tr te = some ((trP, teP), (trR, teR))) :
    trR = trP.map fillRow ∧ teR = teP.map fillRow ∧
    trP.length = tr.length ∧ teP.length = te.length ∧
    (∀ (i : Nat) (r : FeatRow), tr[i]? = some r → ∃ r', trP[i]? = some r' ∧
      (∃ n : Nat, r'.gender = Cell.num n) ∧ (∃ n : Nat, r'.maritalStatus = Cell.num n) ∧
      (∃ n : Nat, r'.partTimeFullTime = Cell.num n) ∧
      r'.age = r.age ∧ r'.accidentMonth = r.accidentMonth ∧ r'.accidentHour = r.accidentHour ∧
      r'.reportDelayDays = r.reportDelayDays ∧ r'.weeklyWages = r.weeklyWages ∧
      r'.hoursWorkedPerWeek = r.hoursWorkedPerWeek ∧ r'.daysWorkedPerWeek = r.daysWorkedPerWeek ∧
      r'.wagePerHour = r.wagePerHour ∧ r'.dependentsTotal = r.dependentsTotal) ∧
    (∀ (i : Nat) (r : FeatRow), te[i]? = some r → ∃ r', teP[i]? = some r' ∧
      (∃ n : Nat, r'.gender = Cell.num n) ∧ (∃ n : Nat, r'.maritalStatus = Cell.num n) ∧
      (∃ n : Nat, r'.partTimeFullTime = Cell.num n) ∧
      r'.age = r.age ∧ r'.accidentMonth = r.accidentMonth ∧ r'.accidentHour = r.accidentHour ∧
      r'.reportDelayDays = r.reportDelayDays ∧ r'.weeklyWages = r.weeklyWages ∧
      r'.hoursWorkedPerWeek = r.hoursWorkedPerWeek ∧ r'.daysWorkedPerWeek = r.daysWorkedPerWeek ∧
      r'.wagePerHour = r.wagePerHour ∧ r'.dependentsTotal = r.dependentsTotal) := by
  have h' : ∃ tr1 te1 tr2 te2,
      encodeCol (fun r => r.gender) (fun r c => { r with gender := c }) tr te = some (tr1, te1) ∧
      encodeCol (fun r => r.maritalStatus) (fun r c => { r with maritalStatus := c }) tr1 te1 =
        some (tr2, te2) ∧
      encodeCol (fun r => r.partTimeFullTime) (fun r c => { r with partTimeFullTime := c }) tr2 te2 =
        some (trP, teP) ∧
      trR = trP.map fillRow ∧ teR = teP.map fillRow := by
    revert h
    cases h1 : encodeCol (fun r => r.gender) (fun r c => { r with gender := c }) tr te with
    | none => intro h; simp [encodeAndImpute, h1] at h
    | some p1 =>
      obtain ⟨tr1, te1⟩ := p1
      cases h2 : encodeCol (fun r => r.maritalStatus) (fun r c => { r with maritalStatus := c })
          tr1 te1 with
      | none => intro h; simp [encodeAndImpute, h1, h2] at h
      | some p2 =>
        obtain ⟨tr2, te2⟩ := p2
        cases h3 : encodeCol (fun r => r.partTimeFullTime)
            (fun r c => { r with partTimeFullTime := c }) tr2 te2 with
        | none => intro h; simp [encodeAndImpute, h1, h2, h3] at h
        | some p3 =>
          obtain ⟨tr3, te3⟩ := p3
          intro h
          simp [encodeAndImpute, h1, h2, h3, Prod.mk.injEq] at h
          obtain ⟨⟨htr3, hte3⟩, htrR, hteR⟩ := h
          subst htr3
          subst hte3
          exact ⟨tr1, te1, tr2, te2, rfl, h2, h3, htrR.symm, hteR.symm⟩
  obtain ⟨tr1, te1, tr2, te2, h1, h2, h3, htrR, hteR⟩ := h'
  obtain ⟨l1tr, l1te, pos1tr, pos1te, pres1⟩ := encodeCol_spec h1
  obtain ⟨l2tr, l2te, pos2tr, pos2te, pres2⟩ := encodeCol_spec h2
  obtain ⟨l3tr, l3te, pos3tr, pos3te, pres3⟩ := encodeCol_spec h3
  refine ⟨htrR, hteR, by rw [l3tr, l2tr, l1tr], by rw [l3te, l2te, l1te], ?_, ?_⟩
  · intro i r hr
    obtain ⟨n1, h1i⟩ := pos1tr i r hr
    obtain ⟨n2, h2i⟩ := pos2tr i _ h1i
    obtain ⟨n3, h3i⟩ := pos3tr i _ h2i
    exact ⟨_, h3i, ⟨n1, rfl⟩, ⟨n2, rfl⟩, ⟨n3, rfl⟩, rfl, rfl, rfl, rfl, rfl, rfl, rfl, rfl, rfl⟩
  · intro i r hr
    obtain ⟨n1, h1i⟩ := pos1te i r hr
    obtain ⟨n2, h2i⟩ := pos2te i _ h1i
    obtain ⟨n3, h3i⟩ := pos3te i _ h2i
    exact ⟨_, h3i, ⟨n1, rfl⟩, ⟨n2, rfl⟩, ⟨n3, rfl⟩, rfl, rfl, rfl, rfl, rfl, rfl, rfl, rfl, rfl⟩

/-- C8: for every input table containing a malformed (unparsable)
timestamp in either timestamp column, `clean_and_engineer` fails the
whole operation — it produces no partially engineered table — rather
than recovering or skipping the bad row. -/
theorem c8_malformed_timestamp_aborts (parse : String → Option Int) (df : List RawRow)
    (h : ∃ r ∈ df, parse r.dateTimeOfAccident = none ∨ parse r.dateReported = none) :
    cleanAndEngineer parse df = none := by
  obtain ⟨r, hr, hcase⟩ := h
  apply mapOpt_eq_none hr
  rcases hcase with hc | hc
  · simp [engineerRow, hc]
  · cases hacc : parse r.dateTimeOfAccident <;> simp [engineerRow, hacc, hc]

theorem c8_witness :
    (∃ r ∈ [badStampRow], parseRejecting r.dateTimeOfAccident = none ∨
      parseRejecting r.dateReported = none) ∧
    cleanAndEngineer parseRejecting [badStampRow] = none :=
  ⟨by decide, c8_malformed_timestamp_aborts parseRejecting [badStampRow] (by decide)⟩

/-- C2: for every row that `clean_and_engineer` successfully processes,
`WagePerHour` equals `WeeklyWages / HoursWorkedPerWeek` whenever the
hours are strictly positive, and is a missing value (not an infinity,
not an error) whenever the hours are exactly zero. -/
theorem c2_wage_per_hour (parse : String → Option Int) (df : List RawRow)
    (out : List EngRow) (h : cleanAndEngineer parse df = some out) :
    out.length = df.length ∧
    ∀ (i : Nat) (r : RawRow), df[i]? = some r → ∃ er, out[i]? = some er ∧
      (r.hoursWorkedPerWeek = some 0 → er.wagePerHour = none) ∧
      (∀ w hq : ℚ, r.weeklyWages = some w → r.hoursWorkedPerWeek = some hq → 0 < hq →
        er.wagePerHour = some (w / hq)) := by
  refine ⟨mapOpt_length h, ?_⟩
  intro i r hr
  obtain ⟨er, her, hfer⟩ := mapOpt_getElem? h hr
  refine ⟨er, her, ?_, ?_⟩ <;>
    revert hfer <;>
    cases hacc : parse r.dateTimeOfAccident <;>
    cases hrep : parse r.dateReported <;>
    intro hfer <;>
    simp only [engineerRow, hacc, hrep, Option.some.injEq, reduceCtorEq] at hfer
  · subst hfer
    intro h0
    simp only [h0, replaceZeroWithNa]
    cases hw : r.weeklyWages <;> simp [divOpt]
  · subst hfer
    intro w hq hw hh hpos
    simp only [hw, hh, replaceZeroWithNa, if_neg hpos.ne', divOpt]

theorem c2_witness :
    cleanAndEngineer pEpoch [wageRow, zeroHourRow] = some [wageEng, zeroHourEng] ∧
    wageEng.wagePerHour = some (600 / 40) ∧ zeroHourEng.wagePerHour = none := by
  have h : cleanAndEngineer pEpoch [wageRow, zeroHourRow] = some [wageEng, zeroHourEng] := rfl
  obtain ⟨-, hall⟩ := c2_wage_per_hour pEpoch _ _ h
  obtain ⟨er1, her1, -, hpos1⟩ := hall 0 wageRow rfl
  obtain ⟨er2, her2, h02, -⟩ := hall 1 zeroHourRow rfl
  have he1 : er1 = wageEng := by simpa using her1.symm
  have he2 : er2 = zeroHourEng := by simpa using her2.symm
  subst he1
  subst he2
  exact ⟨h, hpos1 600 40 rfl rfl (by norm_num), h02 rfl⟩

/-- C3 (amended): `ReportDelayDays` is the timestamp difference in days
rounded toward negative infinity (floor), not truncated toward zero;
floor and truncation agree whenever the report does not precede the
accident, and the value is strictly negative — never clamped to zero —
whenever the report precedes the accident. -/
theorem c3_report_delay_floor (parse : String → Option Int) (df : List RawRow)
    (out : List EngRow) (h : cleanAndEngineer parse df = some out) :
    out.length = df.length ∧
    ∀ (i : Nat) (r : RawRow), df[i]? = some r → ∃ er, out[i]? = some er ∧
      ∀ accNs repNs : Int, parse r.dateTimeOfAccident = some accNs →
        parse r.dateReported = some repNs →
        er.reportDelayDays = Int.fdiv (repNs - accNs) nsPerDay ∧
        (accNs ≤ repNs → er.reportDelayDays = reportDelaySpecTrunc accNs repNs) ∧
        (repNs < accNs → er.reportDelayDays < 0) := by
  refine ⟨mapOpt_length h, ?_⟩
  intro i r hr
  obtain ⟨er, her, hfer⟩ := mapOpt_getElem? h hr
  refine ⟨er, her, ?_⟩
  revert hfer
  cases hacc : parse r.dateTimeOfAccident <;>
    cases hrep : parse r.dateReported <;>
    intro hfer <;>
    simp only [engineerRow, hacc, hrep, Option.some.injEq, reduceCtorEq] at hfer
  subst hfer
  intro accNs repNs hacc' hrep'
  cases hacc'
  cases hrep'
  refine ⟨rfl, ?_, ?_⟩
  · intro hle
    show reportDelayDaysOf _ _ = _
    unfold reportDelayDaysOf reportDelaySpecTrunc
    exact Int.fdiv_eq_tdiv (by omega) (by norm_num [nsPerDay])
  · intro hlt
    show reportDelayDaysOf _ _ < 0
    unfold reportDelayDaysOf
    exact Int.fdiv_neg' (by omega) (by norm_num [nsPerDay])

/-- C3 counterexample: with the report one hour before the accident,
the code's `ReportDelayDays` is `-1` (floor) while the claim's
truncation of the difference is `0`; the claim's equation fails at this
row, and its truncation reading also contradicts its own "negative
whenever the report precedes the accident" clause. -/
theorem c3_counterexample :
    cleanAndEngineer parseOneHour [lateAccidentRow] = some [lateAccidentEng] ∧
    parseOneHour lateAccidentRow.dateTimeOfAccident = some nsPerHour ∧
    parseOneHour lateAccidentRow.dateReported = some 0 ∧
    lateAccidentEng.reportDelayDays = -1 ∧
    reportDelaySpecTrunc nsPerHour 0 = 0 ∧
    lateAccidentEng.reportDelayDays ≠ reportDelaySpecTrunc nsPerHour 0 :=
  ⟨rfl, rfl, rfl, by decide, by decide, by decide⟩

theorem c3_witness :
    cleanAndEngineer parseOneHour [lateAccidentRow] = some [lateAccidentEng] ∧
    lateAccidentEng.reportDelayDays = Int.fdiv (0 - nsPerHour) nsPerDay ∧
    lateAccidentEng.reportDelayDays < 0 := by
  have h : cleanAndEngineer parseOneHour [lateAccidentRow] = some [lateAccidentEng] := rfl
  obtain ⟨-, hall⟩ := c3_report_delay_floor parseOneHour _ _ h
  obtain ⟨er, her, hts⟩ := hall 0 lateAccidentRow rfl
  have he : er = lateAccidentEng := by simpa using her.symm
  subst he
  obtain ⟨heq, -, hneg⟩ := hts nsPerHour 0 rfl rfl
  exact ⟨h, heq, hneg (by decide)⟩

/-- C7: the fitted category encoding is a pure function of the set of
observed (text-coerced) categories in the training column — two
training columns with the same observed set fit identical mappings, and
the resulting transform of any test column is identical. -/
theorem c7_encoding_pure_function (col1 col2 teCol : List Cell)
    (h : (col1.map cellAsStr).toFinset = (col2.map cellAsStr).toFinset) :
    fitClasses col1 = fitClasses col2 ∧
    transformCol (fitClasses col1) teCol = transformCol (fitClasses col2) teCol := by
  have he := fitClasses_eq_of_toFinset_eq h
  exact ⟨he, by rw [he]⟩

theorem c7_witness :
    (colRepeats.map cellAsStr).toFinset = (colPlain.map cellAsStr).toFinset ∧
    fitClasses colRepeats = fitClasses colPlain ∧
    transformCol (fitClasses colRepeats) colApply = transformCol (fitClasses colPlain) colApply := by
  have h : (colRepeats.map cellAsStr).toFinset = (colPlain.map cellAsStr).toFinset := by decide
  obtain ⟨h1, h2⟩ := c7_encoding_pure_function colRepeats colPlain colApply h
  exact ⟨h, h1, h2⟩

/-- C4: if any test-time cell of `Gender`, `MaritalStatus` or
`PartTimeFullTime` coerces to a text value that never occurs (after the
same coercion) in the corresponding training column, `encode_and_impute`
fails with the encoder's lookup error and produces no encoded table. -/
theorem c4_unseen_category_fails (tr te : List FeatRow)
    (h : (∃ c ∈ te.map (fun r => r.gender),
            cellAsStr c ∉ (tr.map (fun r => r.gender)).map cellAsStr) ∨
         (∃ c ∈ te.map (fun r => r.maritalStatus),
            cellAsStr c ∉ (tr.map (fun r => r.maritalStatus)).map cellAsStr) ∨
         (∃ c ∈ te.map (fun r => r.partTimeFullTime),
            cellAsStr c ∉ (tr.map (fun r => r.partTimeFullTime)).map cellAsStr)) :
    encodeAndImpute tr te = none := by
  rcases h with ⟨c, hc, hs⟩ | ⟨c, hc, hs⟩ | ⟨c, hc, hs⟩
  · have h1 := @encodeCol_eq_none _ (fun r c => { r with gender := c }) _ _ _ hc hs
    simp [encodeAndImpute, h1]
  · cases h1 : encodeCol (fun r => r.gender) (fun r c => { r with gender := c }) tr te with
    | none => simp [encodeAndImpute, h1]
    | some p1 =>
      obtain ⟨tr1, te1⟩ := p1
      obtain ⟨-, -, -, -, pres⟩ := encodeCol_spec h1
      obtain ⟨htr, hte⟩ := pres Cell (fun r => r.maritalStatus) (fun _ _ => rfl)
      have hc1 : c ∈ te1.map (fun r => r.maritalStatus) := by rw [hte]; exact hc
      have hs1 : cellAsStr c ∉ ((tr1.map (fun r => r.maritalStatus)).map cellAsStr) := by
        rw [htr]; exact hs
      have h2 := @encodeCol_eq_none _ (fun r c => { r with maritalStatus := c }) _ _ _ hc1 hs1
      simp [encodeAndImpute, h1, h2]
  · cases h1 : encodeCol (fun r => r.gender) (fun r c => { r with gender := c }) tr te with
    | none => simp [encodeAndImpute, h1]
    | some p1 =>
      obtain ⟨tr1, te1⟩ := p1
      obtain ⟨-, -, -, -, pres1⟩ := encodeCol_spec h1
      obtain ⟨htr1, hte1⟩ := pres1 Cell (fun r => r.partTimeFullTime) (fun _ _ => rfl)
      cases h2 : encodeCol (fun r => r.maritalStatus) (fun r c => { r with maritalStatus := c })
          tr1 te1 with
      | none => simp [encodeAndImpute, h1, h2]
      | some p2 =>
        obtain ⟨tr2, te2⟩ := p2
        obtain ⟨-, -, -, -, pres2⟩ := encodeCol_spec h2
        obtain ⟨htr2, hte2⟩ := pres2 Cell (fun r => r.partTimeFullTime) (fun _ _ => rfl)
        have hc2 : c ∈ te2.map (fun r => r.partTimeFullTime) := by
          rw [hte2, hte1]; exact hc
        have hs2 : cellAsStr c ∉ ((tr2.map (fun r => r.partTimeFullTime)).map cellAsStr) := by
          rw [htr2, htr1]; exact hs
        have h3 := @encodeCol_eq_none _ (fun r c => { r with partTimeFullTime := c }) _ _ _ hc2 hs2
        simp [encodeAndImpute, h1, h2, h3]

theorem c4_witness :
    ((∃ c ∈ [unseenFeatRow].map (fun r => r.gender),
        cellAsStr c ∉ ([catFeatRow].map (fun r => r.gender)).map cellAsStr) ∨
     (∃ c ∈ [unseenFeatRow].map (fun r => r.maritalStatus),
        cellAsStr c ∉ ([catFeatRow].map (fun r => r.maritalStatus)).map cellAsStr) ∨
     (∃ c ∈ [unseenFeatRow].map (fun r => r.partTimeFullTime),
        cellAsStr c ∉ ([catFeatRow].map (fun r => r.partTimeFullTime)).map cellAsStr)) ∧
    encodeAndImpute [catFeatRow] [unseenFeatRow] = none :=
  ⟨by decide, c4_unseen_category_fails [catFeatRow] [unseenFeatRow] (by decide)⟩

/-- C5: after the categorical encoding, `encode_and_impute` returns the
two frames with every remaining missing value in every column replaced
by zero (`fillna(0)` applied rowwise to the encoded frames, leaving no
missing cell); in particular a `WagePerHour` that was missing because
the hours were zero ends as `0`, while `WeeklyWages = 600` over
`HoursWorkedPerWeek = 40` ends as `15`. -/
theorem c5_fillna_zero (tr te trP teP trR teR : List FeatRow)
    (h : encodeAndImpute tr te = some ((trP, teP), (trR, teR))) :
    trR = trP.map fillRow ∧ teR = teP.map fillRow ∧
    (∀ r : FeatRow, hasNoNa (fillRow r) = true) ∧
    (∀ (i : Nat) (r : FeatRow), trP[i]? = some r → r.wagePerHour = none →
      ∃ r', trR[i]? = some r' ∧ r'.wagePerHour = some 0) ∧
    (∀ (i : Nat) (r : FeatRow), trP[i]? = some r → r.wagePerHour = some (600 / 40) →
      ∃ r', trR[i]? = some r' ∧ r'.wagePerHour = some 15) ∧
    divOpt (some 600) (replaceZeroWithNa (some 40)) = some (600 / 40) ∧
    (600 : ℚ) / 40 = 15 ∧
    divOpt (some 600) (replaceZeroWithNa (some 0)) = none := by
  obtain ⟨htrR, hteR, -, -, -, -⟩ := encodeAndImpute_spec h
  subst htrR
  refine ⟨rfl, hteR, ?_, ?_, ?_, ?_, by norm_num, ?_⟩
  · intro r
    cases hg : r.gender <;> cases hm : r.maritalStatus <;> cases hp : r.partTimeFullTime <;>
      simp [hasNoNa, fillRow, fillOpt, fillCell, hg, hm, hp]
  · intro i r hri hnone
    refine ⟨fillRow r, ?_, by simp [fillRow, fillOpt, hnone]⟩
    rw [List.getElem?_map, hri]
    rfl
  · intro i r hri hval
    refine ⟨fillRow r, ?_, ?_⟩
    · rw [List.getElem?_map, hri]
      rfl
    · rw [show (fillRow r).wagePerHour = fillOpt r.wagePerHour from rfl, hval]
      show some ((600 : ℚ) / 40) = some 15
      norm_num
  · norm_num [divOpt, replaceZeroWithNa]
  · norm_num [divOpt, replaceZeroWithNa]

theorem c5_witness :
    encodeAndImpute [emptyFeatRow] [emptyFeatRow] =
      some (([encodedEmptyRow], [encodedEmptyRow]), ([filledEmptyRow], [filledEmptyRow])) ∧
    hasNoNa filledEmptyRow = true ∧
    filledEmptyRow.wagePerHour = some 0 ∧ (600 : ℚ) / 40 = 15 := by
  have h : encodeAndImpute [emptyFeatRow] [emptyFeatRow] =
      some (([encodedEmptyRow], [encodedEmptyRow]), ([filledEmptyRow], [filledEmptyRow])) := rfl
  obtain ⟨-, -, hfill, hzero, -, -, h1540, -⟩ := c5_fillna_zero _ _ _ _ _ _ h
  obtain ⟨r', hr', hw⟩ := hzero 0 encodedEmptyRow rfl rfl
  have hr'' : r' = filledEmptyRow := by simpa using hr'.symm
  subst hr''
  exact ⟨h, hfill encodedEmptyRow, hw, h1540⟩

/-- C9: `encode_and_impute` mutates its arguments in place — after the
call the three categorical columns of both frames passed in hold the
integer codes (every other column of the argument frames is untouched),
so a caller's pre-encoding table with a string category is not
preserved; only the final zero-filling produces new frames, which are
exactly the rowwise `fillna(0)` images of the mutated arguments. -/
theorem c9_in_place_mutation (tr te trP teP trR teR : List FeatRow)
    (h : encodeAndImpute tr te = some ((trP, teP), (trR, teR))) :
    (∀ (i : Nat) (r : FeatRow), tr[i]? = some r → ∃ r', trP[i]? = some r' ∧
      (∃ n : Nat, r'.gender = Cell.num n) ∧ (∃ n : Nat, r'.maritalStatus = Cell.num n) ∧
      (∃ n : Nat, r'.partTimeFullTime = Cell.num n) ∧
      r'.age = r.age ∧ r'.accidentMonth = r.accidentMonth ∧ r'.accidentHour = r.accidentHour ∧
      r'.reportDelayDays = r.reportDelayDays ∧ r'.weeklyWages = r.weeklyWages ∧
      r'.hoursWorkedPerWeek = r.hoursWorkedPerWeek ∧ r'.daysWorkedPerWeek = r.daysWorkedPerWeek ∧
      r'.wagePerHour = r.wagePerHour ∧ r'.dependentsTotal = r.dependentsTotal) ∧
    (∀ (i : Nat) (r : FeatRow), te[i]? = some r → ∃ r', teP[i]? = some r' ∧
      (∃ n : Nat, r'.gender = Cell.num n) ∧ (∃ n : Nat, r'.maritalStatus = Cell.num n) ∧
      (∃ n : Nat, r'.partTimeFullTime = Cell.num n) ∧
      r'.age = r.age ∧ r'.accidentMonth = r.accidentMonth ∧ r'.accidentHour = r.accidentHour ∧
      r'.reportDelayDays = r.reportDelayDays ∧ r'.weeklyWages = r.weeklyWages ∧
      r'.hoursWorkedPerWeek = r.hoursWorkedPerWeek ∧ r'.daysWorkedPerWeek = r.daysWorkedPerWeek ∧
      r'.wagePerHour = r.wagePerHour ∧ r'.dependentsTotal = r.dependentsTotal) ∧
    trR = trP.map fillRow ∧ teR = teP.map fillRow ∧
    (∀ (i : Nat) (r : FeatRow) (s : String), tr[i]? = some r → r.gender = Cell.str s →
      trP ≠ tr) := by
  obtain ⟨htrR, hteR, -, -, htr, hte⟩ := encodeAndImpute_spec h
  refine ⟨htr, hte, htrR, hteR, ?_⟩
  intro i r s hri hstr heq
  obtain ⟨r', hr', ⟨n, hn⟩, -⟩ := htr i r hri
  rw [heq, hri] at hr'
  cases hr'
  rw [hstr] at hn
  exact Cell.noConfusion hn

theorem c9_witness :
    encodeAndImpute [catFeatRow] [catFeatRow] =
      some (([encodedCatRow], [encodedCatRow]), ([filledCatRow], [filledCatRow])) ∧
    ([encodedCatRow] : List FeatRow) ≠ [catFeatRow] := by
  have h : encodeAndImpute [catFeatRow] [catFeatRow] =
      some (([encodedCatRow], [encodedCatRow]), ([filledCatRow], [filledCatRow])) := rfl
  obtain ⟨-, -, -, -, hmut⟩ := c9_in_place_mutation _ _ _ _ _ _ h
  exact ⟨h, hmut 0 catFeatRow "M" rfl rfl⟩

/-- C1: `compare_models` returns the best estimator of the family with
the lowest hold-out RMSE; on ties the family evaluated earlier in the
iteration order `GradientBoosting`, `RandomForest`, `CatBoost` is kept,
because the loop compares with strict less-than against the running
best: the selected position has minimal RMSE and every strictly earlier
position has strictly greater RMSE. -/
theorem c1_model_selection (μ : Type) (evalF : FamilyName → μ × ℚ) :
    ∃ i : Fin modelOrder.length,
      compareModels evalF =
        (some (evalF (modelOrder.get i)).1, (((evalF (modelOrder.get i)).2 : ℚ) : WithTop ℚ),
          some (modelOrder.get i)) ∧
      (∀ j : Fin modelOrder.length, (evalF (modelOrder.get i)).2 ≤ (evalF (modelOrder.get j)).2) ∧
      (∀ j : Fin modelOrder.length, j < i →
        (evalF (modelOrder.get i)).2 < (evalF (modelOrder.get j)).2) := by
  rcases lt_or_le (evalF FamilyName.randomForest).2 (evalF FamilyName.gradientBoosting).2 with
    h21 | h21
  · rcases lt_or_le (evalF FamilyName.catBoost).2 (evalF FamilyName.randomForest).2 with
      h32 | h32
    · refine ⟨⟨2, by decide⟩, ?_, ?_, ?_⟩
      · show compareModels evalF = (some (evalF FamilyName.catBoost).1,
          (((evalF FamilyName.catBoost).2 : ℚ) : WithTop ℚ), some FamilyName.catBoost)
        simp [compareModels, modelOrder, WithTop.coe_lt_top, WithTop.coe_lt_coe, h21, h32]
      · intro j
        fin_cases j
        · exact (h32.trans h21).le
        · exact h32.le
        · exact le_refl _
      · intro j hj
        fin_cases j
        · exact h32.trans h21
        · exact h32
        · exact absurd hj (by decide)
    · refine ⟨⟨1, by decide⟩, ?_, ?_, ?_⟩
      · show compareModels evalF = (some (evalF FamilyName.randomForest).1,
          (((evalF FamilyName.randomForest).2 : ℚ) : WithTop ℚ), some FamilyName.randomForest)
        simp [compareModels, modelOrder, WithTop.coe_lt_top, WithTop.coe_lt_coe, h21,
          h32.not_lt]
      · intro j
        fin_cases j
        · exact h21.le
        · exact le_refl _
        · exact h32
      · intro j hj
        fin_cases j
        · exact h21
        · exact absurd hj (by decide)
        · exact absurd hj (by decide)
  · rcases lt_or_le (evalF FamilyName.catBoost).2 (evalF FamilyName.gradientBoosting).2 with
      h31 | h31
    · refine ⟨⟨2, by decide⟩, ?_, ?_, ?_⟩
      · show compareModels evalF = (some (evalF FamilyName.catBoost).1,
          (((evalF FamilyName.catBoost).2 : ℚ) : WithTop ℚ), some FamilyName.catBoost)
        simp [compareModels, modelOrder, WithTop.coe_lt_top, WithTop.coe_lt_coe, h21.not_lt,
          h31]
      · intro j
        fin_cases j
        · exact h31.le
        · exact (h31.trans_le h21).le
        · exact le_refl _
      · intro j hj
        fin_cases j
        · exact h31
        · exact h31.trans_le h21
        · exact absurd hj (by decide)
    · refine ⟨⟨0, by decide⟩, ?_, ?_, ?_⟩
      · show compareModels evalF = (some (evalF FamilyName.gradientBoosting).1,
          (((evalF FamilyName.gradientBoosting).2 : ℚ) : WithTop ℚ),
          some FamilyName.gradientBoosting)
        simp [compareModels, modelOrder, WithTop.coe_lt_top, WithTop.coe_lt_coe, h21.not_lt,
          h31.not_lt]
      · intro j
        fin_cases j
        · exact le_refl _
        · exact h21
        · exact h31
      · intro j hj
        fin_cases j
        · exact absurd hj (by decide)
        · exact absurd hj (by decide)
        · exact absurd hj (by decide)

/-- C6: in `main` the selected model is refit on the full training
design matrix (which the seed-42 split partitions into the training and
validation rows, so full = training + validation rows combined) and the
full target vector before prediction, and the written submission table
has exactly the submission template's rows in order, each row unchanged
except for the target column, which is overwritten with one prediction
per test row. -/
theorem c6_refit_full_and_submission (μ : Type) (d : Deps μ) (train test : List RawRow)
    (sub : List SubRow) (m : μ) (out : List SubRow)
    (hsplit : ∀ (x : List FeatRow) (y : List ℚ),
      List.Perm ((d.splitFn splitRandomState x y).1.1 ++ (d.splitFn splitRandomState x y).1.2) x)
    (h : mainPipeline d train test sub = some (m, out)) :
    ∃ (trainE testE : List EngRow) (post : List FeatRow × List FeatRow)
      (x xTest : List FeatRow) (bm : μ),
      cleanAndEngineer d.parse train = some trainE ∧
      cleanAndEngineer d.parse test = some testE ∧
      encodeAndImpute (trainE.map featRowOf) (testE.map featRowOf) = some (post, (x, xTest)) ∧
      m = d.refit bm x (trainE.map (fun e => e.raw.ultimateIncurredClaimCost)) ∧
      List.Perm
        ((d.splitFn splitRandomState x
            (trainE.map (fun e => e.raw.ultimateIncurredClaimCost))).1.1 ++
          (d.splitFn splitRandomState x
            (trainE.map (fun e => e.raw.ultimateIncurredClaimCost))).1.2) x ∧
      xTest.length = sub.length ∧ out.length = sub.length ∧
      (∀ (i : Nat) (r : SubRow), sub[i]? = some r → ∃ xr, xTest[i]? = some xr ∧
        out[i]? = some { r with target := d.predictRow m xr }) := by
  revert h
  cases htr : cleanAndEngineer d.parse train with
  | none => intro h; simp [mainPipeline, htr] at h
  | some trainE =>
  cases hte : cleanAndEngineer d.parse test with
  | none => intro h; simp [mainPipeline, htr, hte] at h
  | some testE =>
  cases henc : encodeAndImpute (trainE.map featRowOf) (testE.map featRowOf) with
  | none => intro h; simp [mainPipeline, htr, hte, henc] at h
  | some pr =>
  obtain ⟨post, x, xTest⟩ := pr
  cases hbm : (compareModels (d.evalFamily estimatorRandomState
      ((d.splitFn splitRandomState x
          (trainE.map (fun e => e.raw.ultimateIncurredClaimCost))).1.1,
        (d.splitFn splitRandomState x
          (trainE.map (fun e => e.raw.ultimateIncurredClaimCost))).2.1)
      ((d.splitFn splitRandomState x
          (trainE.map (fun e => e.raw.ultimateIncurredClaimCost))).1.2,
        (d.splitFn splitRandomState x
          (trainE.map (fun e => e.raw.ultimateIncurredClaimCost))).2.2))).1 with
  | none => intro h; simp [mainPipeline, htr, hte, henc, hbm] at h
  | some bm =>
  intro h
  simp only [mainPipeline] at h
  simp [htr, hte, henc, hbm, Option.ite_none_right_eq_some, Prod.mk.injEq] at h
  obtain ⟨hlen, hm, hout⟩ := h
  refine ⟨trainE, testE, post, x, xTest, bm, rfl, rfl, henc, hm.symm, hsplit _ _, hlen, ?_, ?_⟩
  · rw [← hout]
    simp [writeSubmission, hlen]
  · intro i r hri
    have hi : i < sub.length := by
      rcases List.getElem?_eq_some.mp hri with ⟨hlt, -⟩
      exact hlt
    have hix : i < xTest.length := by
      rw [hlen]
      exact hi
    refine ⟨xTest[i], List.getElem?_eq_getElem hix, ?_⟩
    rw [← hout, ← hm]
    have hp : (xTest.map (d.predictRow (d.refit bm x
        (trainE.map (fun e => e.raw.ultimateIncurredClaimCost)))))[i]? =
        some (d.predictRow (d.refit bm x
          (trainE.map (fun e => e.raw.ultimateIncurredClaimCost))) xTest[i]) := by
      rw [List.getElem?_map, List.getElem?_eq_getElem hix]
      rfl
    exact zipWith_getElem? hri hp

theorem c6_witness :
    (∀ (x : List FeatRow) (y : List ℚ),
      List.Perm ((depsConst.splitFn splitRandomState x y).1.1 ++
        (depsConst.splitFn splitRandomState x y).1.2) x) ∧
    mainPipeline depsConst [zeroHourRow] [zeroHourRow] subTemplate = some ((), subWritten) ∧
    ∃ (trainE testE : List EngRow) (post : List FeatRow × List FeatRow)
      (x xTest : List FeatRow) (bm : Unit),
      cleanAndEngineer depsConst.parse [zeroHourRow] = some trainE ∧
      cleanAndEngineer depsConst.parse [zeroHourRow] = some testE ∧
      encodeAndImpute (trainE.map featRowOf) (testE.map featRowOf) = some (post, (x, xTest)) ∧
      () = depsConst.refit bm x (trainE.map (fun e => e.raw.ultimateIncurredClaimCost)) ∧
      List.Perm
        ((depsConst.splitFn splitRandomState x
            (trainE.map (fun e => e.raw.ultimateIncurredClaimCost))).1.1 ++
          (depsConst.splitFn splitRandomState x
            (trainE.map (fun e => e.raw.ultimateIncurredClaimCost))).1.2) x ∧
      xTest.length = subTemplate.length ∧ subWritten.length = subTemplate.length ∧
      (∀ (i : Nat) (r : SubRow), subTemplate[i]? = some r → ∃ xr, xTest[i]? = some xr ∧
        subWritten[i]? = some { r with target := depsConst.predictRow () xr }) := by
  have hs : ∀ (x : List FeatRow) (y : List ℚ),
      List.Perm ((depsConst.splitFn splitRandomState x y).1.1 ++
        (depsConst.splitFn splitRandomState x y).1.2) x := by
    intro x y
    simp [depsConst]
  have h : mainPipeline depsConst [zeroHourRow] [zeroHourRow] subTemplate =
      some ((), subWritten) := rfl
  exact ⟨hs, h, c6_refit_full_and_submission Unit depsConst [zeroHourRow] [zeroHourRow]
    subTemplate () subWritten hs h⟩

/-- C10: the pipeline's only stochastic components — the train/
validation split and the three estimators — are invoked at the fixed
literal seed 42, so any two dependency bundles whose library routines
agree at seed 42 (as two runs of the same libraries on byte-identical
inputs do) make `main` select the same model and write identical
predictions; behaviour at any other seed is irrelevant. -/
theorem c10_deterministic (μ : Type) (d₁ d₂ : Deps μ)
    (hparse : d₁.parse = d₂.parse)
    (hsplit : d₁.splitFn splitRandomState = d₂.splitFn splitRandomState)
    (heval : d₁.evalFamily estimatorRandomState = d₂.evalFamily estimatorRandomState)
    (hrefit : d₁.refit = d₂.refit)
    (hpredict : d₁.predictRow = d₂.predictRow)
    (train test : List RawRow) (sub : List SubRow) :
    mainPipeline d₁ train test sub = mainPipeline d₂ train test sub := by
  unfold mainPipeline
  rw [hparse, hsplit, heval, hrefit, hpredict]

theorem c10_witness :
    depsSeedA.splitFn 0 ≠ depsConst.splitFn 0 ∧
    depsSeedA.splitFn splitRandomState = depsConst.splitFn splitRandomState ∧
    mainPipeline depsSeedA [zeroHourRow] [zeroHourRow] subTemplate =
      mainPipeline depsConst [zeroHourRow] [zeroHourRow] subTemplate := by
  refine ⟨?_, rfl, c10_deterministic Unit depsSeedA depsConst rfl rfl rfl rfl rfl
    [zeroHourRow] [zeroHourRow] subTemplate⟩
  intro hcontra
  have h0 : (depsSeedA.splitFn 0 [emptyFeatRow] []).1.1 =
      (depsConst.splitFn 0 [emptyFeatRow] []).1.1 := by
    rw [hcontra]
  simp [depsSeedA, depsConst] at h0
